import Mathlib

/-!
Verification of the AibaPM skills subsystem: the skills database layer
(src/unnamed/part_000), the request validation middleware
(src/backend/src/middleware/validation.js) and the skill matching engine
(matcher, precedence resolver, token budgeter, context formatter) whose
algorithm is given in src/skills-implementation.md. The matching service
file itself (backend/src/services/skillMatcher.js) is not among the
repository files; where a definition below fills such a gap it is marked
"Modelled from the spec:" and follows the specification text.
-/

namespace AibaPM

/-! ## Data model: rows of the `skills` table (src/unnamed/part_000, lines 278-300) -/

/-- Modelled from the spec: the `trigger_keywords` column is TEXT holding a
JSON array of strings; a record may carry NULL (missing) or text that does
not parse as a JSON array of strings (malformed). JSON parsing itself is
abstracted into the three outcomes. -/
inductive KeywordsField where
  | missing
  | malformed
  | valid (keywords : List String)
deriving DecidableEq

/-- One row of the `skills` table. Timestamps are modelled as naturals. -/
structure SkillRow where
  id : Nat
  name : String
  slug : String
  description : Option String
  content : String
  is_global : Bool
  project_id : Option Nat
  trigger_keywords : KeywordsField
  auto_activate : Bool
  created_at : Nat
  updated_at : Nat
deriving DecidableEq

/-- COALESCE(project_id, 0), as used by the unique index idx_skills_slug_scope. -/
def scopeKey (pid : Option Nat) : Nat := pid.getD 0

/-- Insertion into the `skills` table, enforcing the constraints its DDL
declares (src/unnamed/part_000, lines 278-300): the column-level
`slug TEXT NOT NULL UNIQUE`, and the composite unique index
`idx_skills_slug_scope ON skills(slug, COALESCE(project_id, 0))`. -/
def insertSkill (tbl : List SkillRow) (r : SkillRow) : Except String (List SkillRow) :=
  if tbl.any (fun x => x.slug == r.slug) then
    Except.error "UNIQUE constraint failed: skills.slug"
  else if tbl.any (fun x => x.slug == r.slug && scopeKey x.project_id == scopeKey r.project_id) then
    Except.error "UNIQUE constraint failed: index idx_skills_slug_scope"
  else
    Except.ok (tbl ++ [r])

/-! ## Skill store queries (src/unnamed/part_000, lines 446-452) -/

/-- ORDER BY updated_at DESC. -/
def updatedDesc (a b : SkillRow) : Prop := b.updated_at ≤ a.updated_at

instance : DecidableRel updatedDesc := fun a b => by unfold updatedDesc; exact inferInstance

instance : IsTotal SkillRow updatedDesc := ⟨by intro a b; unfold updatedDesc; omega⟩

instance : IsTrans SkillRow updatedDesc := ⟨by intro a b c; unfold updatedDesc; omega⟩

/-- SELECT * FROM skills WHERE is_global = 1 AND auto_activate = 1 ORDER BY updated_at DESC. -/
def getGlobalSkills (tbl : List SkillRow) : List SkillRow :=
  List.insertionSort updatedDesc (tbl.filter (fun r => r.is_global && r.auto_activate))

/-- SELECT * FROM skills WHERE project_id = ? AND auto_activate = 1 ORDER BY updated_at DESC. -/
def getProjectSkills (tbl : List SkillRow) (pid : Nat) : List SkillRow :=
  List.insertionSort updatedDesc
    (tbl.filter (fun r => r.project_id == some pid && r.auto_activate))

/-! ## Matcher (src/skills-implementation.md, lines 282-292, and spec section 4.1) -/

/-- Leading and trailing whitespace removed (the JS String.prototype.trim
of the normalization step, on the character list). -/
def trimChars (l : List Char) : List Char :=
  ((l.dropWhile Char.isWhitespace).reverse.dropWhile Char.isWhitespace).reverse

/-- Modelled from the spec: "Normalize the message: lowercase, trim." -/
def lowerTrim (s : String) : List Char := trimChars (s.toList.map Char.toLower)

def tokenizeAux : List Char → List Char → List (List Char)
  | cur, [] => if cur.isEmpty then [] else [cur.reverse]
  | cur, c :: rest =>
    if c.isAlphanum then tokenizeAux (c :: cur) rest
    else if cur.isEmpty then tokenizeAux [] rest
    else cur.reverse :: tokenizeAux [] rest

/-- Modelled from the spec: "Tokenize the normalized message into words
(whitespace/punctuation-delimited)": maximal runs of alphanumeric characters. -/
def tokenize (l : List Char) : List (List Char) := tokenizeAux [] l

/-- Whether `needle` occurs contiguously inside `hay` (the JS
String.prototype.includes of the phrase and partial checks). -/
def isSubSeg : List Char → List Char → Bool
  | needle, [] => needle.isEmpty
  | needle, c :: rest => needle.isPrefixOf (c :: rest) || isSubSeg needle rest

/-- Modelled from the spec: "Missing or malformed triggerKeywords on a skill
record: treat as empty list (skill can never score, effectively excluded)
rather than raising." -/
def parseKeywords : KeywordsField → List String
  | KeywordsField.missing => []
  | KeywordsField.malformed => []
  | KeywordsField.valid ks => ks

/-- The score one keyword contributes (src/skills-implementation.md,
lines 282-292): 4 for a matched phrase (keyword containing a space found as a
contiguous substring of the normalized message), else 2 for an exact word
match, else 1 for a partial (substring-of-a-token) match, else 0. The
keyword is lowercased, matching being case-insensitive. -/
def keywordScore (norm : List Char) (words : List (List Char)) (kw : String) : Nat :=
  let k := kw.toList.map Char.toLower
  if k.contains ' ' then
    if isSubSeg k norm then 4 else 0
  else if words.contains k then 2
  else if words.any (fun w => isSubSeg k w) then 1
  else 0

/-- The match explanation one keyword contributes, if any: recorded only for
the branch that scored, the partial record only when no exact match for that
keyword was found. -/
def keywordMatch (norm : List Char) (words : List (List Char)) (kw : String) : Option String :=
  let k := kw.toList.map Char.toLower
  if k.contains ' ' then
    if isSubSeg k norm then some ("phrase:\"" ++ kw ++ "\"") else none
  else if words.contains k then some ("word:\"" ++ kw ++ "\"")
  else if words.any (fun w => isSubSeg k w) then some ("partial:\"" ++ kw ++ "\"")
  else none

/-- The scoring loop of Step 1 (src/skills-implementation.md, lines 282-292):
one pass over the keyword list accumulating the score and the match list, as
the source mutates `score` and `matches`. -/
def scoreSkillAux (norm : List Char) (words : List (List Char)) :
    Nat × List String → List String → Nat × List String
  | acc, [] => acc
  | (sc, ms), kw :: rest =>
    let k := kw.toList.map Char.toLower
    let next :=
      if k.contains ' ' then
        if isSubSeg k norm then (sc + 4, ms ++ ["phrase:\"" ++ kw ++ "\""]) else (sc, ms)
      else if words.contains k then (sc + 2, ms ++ ["word:\"" ++ kw ++ "\""])
      else if words.any (fun w => isSubSeg k w) then (sc + 1, ms ++ ["partial:\"" ++ kw ++ "\""])
      else (sc, ms)
    scoreSkillAux norm words next rest

/-- scoreSkill(skill, normalizedMessage, messageWords) of the source plan:
returns the score and the ordered match explanations. -/
def scoreSkill (skill : SkillRow) (norm : List Char) (words : List (List Char)) :
    Nat × List String :=
  scoreSkillAux norm words (0, []) (parseKeywords skill.trigger_keywords)

/-! ## Precedence resolver (src/skills-implementation.md, lines 294-300, and
spec sections 4.2 and 8) -/

inductive SkillScope where
  | project
  | global
deriving DecidableEq

/-- The scope of a row: `is_global` distinguishes global skills from project skills. -/
def scopeOf (r : SkillRow) : SkillScope := if r.is_global then SkillScope.global else SkillScope.project

def scopeRank : SkillScope → Nat
  | SkillScope.project => 0
  | SkillScope.global => 1

/-- A candidate skill with its matcher score and explanations (the source calls the explanation list `matches`). -/
structure ScoredSkill where
  row : SkillRow
  score : Nat
  matchStrings : List String
deriving DecidableEq

/-- Modelled from the spec: the sort key of the precedence resolver, in strict
lexicographic priority — scope (project before global), score descending,
updated_at descending (src/skills-implementation.md, lines 294-300) — closed
off with the fixed deterministic secondary key the spec requires for full
ties: ascending id. -/
def keyLE (a b : ScoredSkill) : Prop :=
  scopeRank (scopeOf a.row) < scopeRank (scopeOf b.row) ∨
    (scopeRank (scopeOf a.row) = scopeRank (scopeOf b.row) ∧
      (b.score < a.score ∨ (a.score = b.score ∧
        (b.row.updated_at < a.row.updated_at ∨
          (a.row.updated_at = b.row.updated_at ∧ a.row.id ≤ b.row.id)))))

instance : DecidableRel keyLE := fun a b => by unfold keyLE; exact inferInstance

instance : IsTotal ScoredSkill keyLE := ⟨by intro a b; unfold keyLE; omega⟩

instance : IsTrans ScoredSkill keyLE := ⟨by intro a b c; unfold keyLE; omega⟩

/-- applySortPrecedence(skills): sort by the strict precedence key. -/
def applySortPrecedence (l : List ScoredSkill) : List ScoredSkill :=
  List.insertionSort keyLE l

/-! ## Token budgeter (src/skills-implementation.md, lines 302-319) -/

/-- Modelled from the spec: "approximate token count from content length using
a fixed ratio (reference behavior: content character count divided by 4,
rounded)". Rounding half up, as JS Math.round does. Costs live in ℚ because
Step 3 halves the estimate with JS number division. -/
def estimateTokens (content : String) : ℚ := ((content.length + 2) / 4 : ℕ)

/-- One accepted skill of the budgeter output, tagged with its accepted token
cost and whether it was compressed. -/
structure MatchResult where
  scored : ScoredSkill
  estimatedTokens : ℚ
  compressed : Bool
deriving DecidableEq

/-- Step 3: Apply Token Budget (src/skills-implementation.md, lines 302-319),
translated clause for clause: walk the ordered list with a running total;
a skill whose full cost fits is included uncompressed; otherwise, if it can be
compressed, its cost is halved and it is included compressed (the source does
not re-check the budget here); otherwise the loop breaks. canCompress is left
undefined by the source and is taken as a parameter. -/
def applyTokenBudget (canCompress : SkillRow → Bool) (budget : ℚ) :
    ℚ → List ScoredSkill → List MatchResult
  | _, [] => []
  | current, s :: rest =>
    let tokens := estimateTokens s.row.content
    if budget < current + tokens then
      if canCompress s.row then
        let half := tokens / 2
        ⟨s, half, true⟩ :: applyTokenBudget canCompress budget (current + half) rest
      else []
    else
      ⟨s, tokens, false⟩ :: applyTokenBudget canCompress budget (current + tokens) rest

/-! ## The engine (spec sections 4 and 6; findRelevantSkills of the plan) -/

/-- Modelled from the spec: the engine merges the auto-activating project
skills of the given project (when one is given) with the auto-activating
global skills before scoring. -/
def candidatesFor (tbl : List SkillRow) : Option Nat → List SkillRow
  | none => getGlobalSkills tbl
  | some pid => getProjectSkills tbl pid ++ getGlobalSkills tbl

/-- Score every candidate against the normalized, tokenized message. -/
def scoreAll (msg : String) (cands : List SkillRow) : List ScoredSkill :=
  cands.map (fun r =>
    let p := scoreSkill r (lowerTrim msg) (tokenize (lowerTrim msg))
    ⟨r, p.1, p.2⟩)

/-- The candidates with a non-zero score, in strict precedence order: Step 1
drops the skills whose total score is 0, Step 2 sorts the rest. -/
def rankedSkills (tbl : List SkillRow) (msg : String) (pid : Option Nat) :
    List ScoredSkill :=
  applySortPrecedence
    ((scoreAll msg (candidatesFor tbl pid)).filter (fun s => 0 < s.score))

/-- Modelled from the spec: findRelevantSkills(userMessage, projectId,
tokenBudget = 2000) — score the candidates, drop the zero scores, apply strict
precedence, then the token budget. canCompress is the budgeter test for
compression eligibility, a parameter here. -/
def findRelevantSkills (canCompress : SkillRow → Bool) (tbl : List SkillRow)
    (userMessage : String) (projectId : Option Nat) (tokenBudget : ℚ) :
    List MatchResult :=
  applyTokenBudget canCompress tokenBudget 0 (rankedSkills tbl userMessage projectId)

/-- Modelled from the spec: buildSkillsContext(skills) renders the accepted
skills, in order, each under a heading with its name; the empty list yields
the empty string (no heading scaffolding when nothing to inject). -/
def buildSkillsContext (skills : List MatchResult) : String :=
  if skills.isEmpty then ""
  else
    skills.foldl
      (fun acc r =>
        acc ++ "## Skill: " ++ r.scored.row.name ++ "\n\n" ++ r.scored.row.content ++ "\n\n")
      "\n\n---\n\n# Active Skills\n\n"

/-! ## Validation middleware (src/backend/src/middleware/validation.js,
lines 46-63 and 79-110) -/

/-- The body of a POST /api/skills request, as far as createSkillSchema reads
it: a field is `none` when absent from the JSON body. projectId may arrive as
a JSON number (Int) or as a string. -/
structure CreateSkillInput where
  name : Option String
  content : Option String
  triggerKeywords : Option (List String)
  isGlobal : Option Bool
  projectId : Option (Int ⊕ String)
deriving DecidableEq

/-- The data the middleware hands on after a successful safeParse. -/
structure ValidatedSkill where
  name : String
  content : String
  triggerKeywords : List String
  isGlobal : Bool
  projectId : Option Nat
deriving DecidableEq

def allDigits (s : String) : Bool := !s.isEmpty && s.toList.all Char.isDigit

def digitsToNat (s : String) : Nat := s.toList.foldl (fun n c => 10 * n + (c.toNat - 48)) 0

/-- z.union([z.number().int().positive(), z.string().regex(digits).transform(Number)]).optional(). -/
def parseProjectId : Option (Int ⊕ String) → Except String (Option Nat)
  | none => Except.ok none
  | some (Sum.inl n) =>
    if 0 < n then Except.ok (some n.toNat) else Except.error "invalid projectId"
  | some (Sum.inr s) =>
    if allDigits s then Except.ok (some (digitsToNat s)) else Except.error "invalid projectId"

/-- The JS String.prototype.trim applied by the zod trim transform. -/
def trimString (s : String) : String := String.mk (trimChars s.toList)

/-- name: z.string().min(1).max(100).trim() — zod runs the checks of a string
schema in order, so the min(1)/max(100) length checks see the raw string and
the trim transform runs after them. -/
def checkName : Option String → Except String String
  | none => Except.error "Skill name is required"
  | some s =>
    if s.length < 1 then Except.error "Skill name is required"
    else if 100 < s.length then Except.error "Skill name must be less than 100 characters"
    else Except.ok (trimString s)

/-- content: z.string().min(1).max(50000), no trim. -/
def checkContent : Option String → Except String String
  | none => Except.error "Skill content is required"
  | some s =>
    if s.length < 1 then Except.error "Skill content is required"
    else if 50000 < s.length then Except.error "Skill content must be less than 50,000 characters"
    else Except.ok s

/-- createSkillSchema (src/backend/src/middleware/validation.js, lines 47-61):
a request parses when every field check passes; triggerKeywords defaults to []
and isGlobal to false when absent. -/
def parseCreateSkill (input : CreateSkillInput) : Except String ValidatedSkill :=
  match checkName input.name with
  | Except.error e => Except.error e
  | Except.ok nm =>
    match checkContent input.content with
    | Except.error e => Except.error e
    | Except.ok ct =>
      match parseProjectId input.projectId with
      | Except.error e => Except.error e
      | Except.ok pid =>
        Except.ok ⟨nm, ct, input.triggerKeywords.getD [], input.isGlobal.getD false, pid⟩

/-- The validate(schema) middleware (validation.js, lines 79-110): on a failed
safeParse it answers HTTP 400 with the validation message and no skill is
created; on success the validated data replaces the request body. -/
def validateCreateSkill (input : CreateSkillInput) : Except (Nat × String) ValidatedSkill :=
  match parseCreateSkill input with
  | Except.ok d => Except.ok d
  | Except.error e => Except.error (400, e)

/-! ## Relations the ordering claims are stated with -/

/-- The pairwise ordering the precedence claims assert of the resolver output:
a global skill never precedes a project skill; within one scope the scores do
not increase; within one scope and equal score the update timestamps do not
increase. -/
def precedesRel (a b : ScoredSkill) : Prop :=
  (scopeOf b.row = SkillScope.project → scopeOf a.row = SkillScope.project) ∧
  (scopeOf a.row = scopeOf b.row → b.score ≤ a.score) ∧
  (scopeOf a.row = scopeOf b.row → a.score = b.score → b.row.updated_at ≤ a.row.updated_at)

/-- The pairwise tie-break the determinism claim asserts: skills tied on
scope, score and update timestamp appear in ascending id order. -/
def tieBreakRel (a b : ScoredSkill) : Prop :=
  scopeOf a.row = scopeOf b.row → a.score = b.score →
    a.row.updated_at = b.row.updated_at → a.row.id ≤ b.row.id

/-! ## Concrete fixtures for witnesses and counterexamples -/

/-- A global skill with slug status-format. -/
def globalStatusRow : SkillRow :=
  { id := 1, name := "Weekly Status Format", slug := "status-format", description := none,
    content := "Use the weekly format.", is_global := true, project_id := none,
    trigger_keywords := KeywordsField.valid ["status", "update"],
    auto_activate := true, created_at := 0, updated_at := 0 }

/-- A project-1 skill with the same slug status-format. -/
def projectStatusRow : SkillRow :=
  { id := 2, name := "Marketing Status Format", slug := "status-format", description := none,
    content := "Use the marketing format.", is_global := false, project_id := some 1,
    trigger_keywords := KeywordsField.valid ["status"],
    auto_activate := true, created_at := 0, updated_at := 0 }

/-- A skill whose content estimates to 10 tokens (38 characters). -/
def oversizeRow : SkillRow :=
  { id := 3, name := "Big", slug := "big", description := none,
    content := "aaaaaaaaaaaaaaaaaaaaaaaaaaaaaaaaaaaaaa", is_global := true, project_id := none,
    trigger_keywords := KeywordsField.valid ["status"],
    auto_activate := true, created_at := 0, updated_at := 0 }

/-- The oversize skill as a scored candidate. -/
def oversizeScored : ScoredSkill := ⟨oversizeRow, 2, ["word:\"status\""]⟩

/-- A skill record whose trigger_keywords column is NULL. -/
def missingKwRow : SkillRow :=
  { id := 4, name := "No Keywords", slug := "no-keywords", description := none,
    content := "Has no keywords.", is_global := true, project_id := none,
    trigger_keywords := KeywordsField.missing,
    auto_activate := true, created_at := 0, updated_at := 0 }

/-- A creation request whose name is a single blank. -/
def whitespaceNameInput : CreateSkillInput :=
  { name := some " ", content := some "x", triggerKeywords := none,
    isGlobal := none, projectId := none }

/-! ## Helper lemmas -/

/-- The scoring loop equals the sum of per-keyword scores paired with the
per-keyword match records, whatever the accumulator. -/
theorem scoreSkillAux_eq (norm : List Char) (words : List (List Char))
    (sc : Nat) (ms : List String) (ks : List String) :
    scoreSkillAux norm words (sc, ms) ks =
      (sc + (ks.map (keywordScore norm words)).sum,
       ms ++ ks.filterMap (keywordMatch norm words)) := by
  induction ks generalizing sc ms with
  | nil => simp [scoreSkillAux]
  | cons kw rest ih =>
    simp only [scoreSkillAux, keywordScore, keywordMatch, List.map_cons, List.sum_cons,
      List.filterMap_cons]
    split_ifs <;> simp [ih, List.append_assoc] <;> omega

/-- The budgeter accepts an order-preserving prefix of its input: it never
skips a skill and then accepts a later one. -/
theorem applyTokenBudget_take (canCompress : SkillRow → Bool) (budget : ℚ)
    (current : ℚ) (l : List ScoredSkill) :
    ∃ k, k ≤ l.length ∧
      (applyTokenBudget canCompress budget current l).map MatchResult.scored = l.take k := by
  induction l generalizing current with
  | nil => exact ⟨0, by simp, rfl⟩
  | cons s rest ih =>
    by_cases h1 : budget < current + estimateTokens s.row.content
    · by_cases h2 : canCompress s.row
      · obtain ⟨k, hk, he⟩ := ih (current + estimateTokens s.row.content / 2)
        refine ⟨k + 1, by simp; omega, ?_⟩
        simp only [applyTokenBudget, if_pos h1, if_pos h2, List.map_cons, List.take_succ_cons]
        rw [he]
      · refine ⟨0, by simp, ?_⟩
        simp only [applyTokenBudget, if_pos h1, if_neg h2, List.map_nil, List.take_zero]
    · obtain ⟨k, hk, he⟩ := ih (current + estimateTokens s.row.content)
      refine ⟨k + 1, by simp; omega, ?_⟩
      simp only [applyTokenBudget, if_neg h1, List.map_cons, List.take_succ_cons]
      rw [he]

theorem mem_of_mem_applyTokenBudget {canCompress : SkillRow → Bool} {budget current : ℚ}
    {l : List ScoredSkill} {r : MatchResult}
    (h : r ∈ applyTokenBudget canCompress budget current l) : r.scored ∈ l := by
  obtain ⟨k, _, he⟩ := applyTokenBudget_take canCompress budget current l
  have hm : r.scored ∈ (applyTokenBudget canCompress budget current l).map MatchResult.scored :=
    List.mem_map_of_mem MatchResult.scored h
  rw [he] at hm
  exact List.take_subset k l hm

theorem applySortPrecedence_perm (l : List ScoredSkill) :
    (applySortPrecedence l).Perm l :=
  List.perm_insertionSort keyLE l

theorem mem_scoreAll {msg : String} {cands : List SkillRow} {s : ScoredSkill}
    (h : s ∈ scoreAll msg cands) :
    s.row ∈ cands ∧
    s.score = (scoreSkill s.row (lowerTrim msg) (tokenize (lowerTrim msg))).1 ∧
    s.matchStrings = (scoreSkill s.row (lowerTrim msg) (tokenize (lowerTrim msg))).2 := by
  rw [scoreAll] at h
  rcases List.mem_map.mp h with ⟨r, hr, rfl⟩
  exact ⟨hr, rfl, rfl⟩

theorem mem_findRelevantSkills {canCompress : SkillRow → Bool} {tbl : List SkillRow}
    {msg : String} {pid : Option Nat} {budget : ℚ} {r : MatchResult}
    (h : r ∈ findRelevantSkills canCompress tbl msg pid budget) :
    r.scored.row ∈ candidatesFor tbl pid ∧ 0 < r.scored.score ∧
    r.scored.score = (scoreSkill r.scored.row (lowerTrim msg) (tokenize (lowerTrim msg))).1 := by
  rw [findRelevantSkills] at h
  have h1 : r.scored ∈ rankedSkills tbl msg pid := mem_of_mem_applyTokenBudget h
  rw [rankedSkills] at h1
  have h2 := (applySortPrecedence_perm _).mem_iff.mp h1
  rw [List.mem_filter] at h2
  obtain ⟨h3, h4⟩ := h2
  have h5 := mem_scoreAll h3
  exact ⟨h5.1, by simpa using h4, h5.2.1⟩

theorem scopeRank_eq_iff {s t : SkillScope} : scopeRank s = scopeRank t ↔ s = t := by
  cases s <;> cases t <;> simp [scopeRank]

theorem keyLE_precedes {a b : ScoredSkill} (h : keyLE a b) : precedesRel a b := by
  unfold keyLE at h
  refine ⟨?_, ?_, ?_⟩
  · intro hb
    have hrb : scopeRank (scopeOf b.row) = 0 := by rw [hb]; rfl
    have hra : scopeRank (scopeOf a.row) = 0 := by omega
    have : scopeRank (scopeOf a.row) = scopeRank SkillScope.project := hra
    exact scopeRank_eq_iff.mp this
  · intro hs
    have := scopeRank_eq_iff.mpr hs
    omega
  · intro hs hsc
    have := scopeRank_eq_iff.mpr hs
    omega

theorem keyLE_tieBreak {a b : ScoredSkill} (h : keyLE a b) : tieBreakRel a b := by
  unfold keyLE at h
  intro hs hsc hup
  have := scopeRank_eq_iff.mpr hs
  omega

theorem dropWhile_length_le (p : Char → Bool) (l : List Char) :
    (l.dropWhile p).length ≤ l.length := by
  induction l with
  | nil => simp
  | cons a t ih =>
    rw [List.dropWhile]
    split
    · exact le_trans ih (by simp)
    · simp

theorem trimChars_length_le (l : List Char) : (trimChars l).length ≤ l.length := by
  unfold trimChars
  calc ((l.dropWhile Char.isWhitespace).reverse.dropWhile Char.isWhitespace).reverse.length
      ≤ (l.dropWhile Char.isWhitespace).reverse.length := by
        rw [List.length_reverse]; exact dropWhile_length_le _ _
    _ ≤ l.length := by rw [List.length_reverse]; exact dropWhile_length_le _ _

theorem trimString_length_le (s : String) : (trimString s).length ≤ s.length :=
  trimChars_length_le s.toList

theorem checkName_ok {o : Option String} {nm : String} (h : checkName o = Except.ok nm) :
    ∃ s, o = some s ∧ 1 ≤ s.length ∧ s.length ≤ 100 ∧ nm = trimString s := by
  rcases o with _ | s
  · simp [checkName] at h
  · rw [checkName] at h
    split_ifs at h with h1 h2
    simp only [Except.ok.injEq] at h
    exact ⟨s, rfl, by omega, by omega, h.symm⟩

theorem checkContent_ok {o : Option String} {ct : String} (h : checkContent o = Except.ok ct) :
    o = some ct ∧ 1 ≤ ct.length ∧ ct.length ≤ 50000 := by
  rcases o with _ | s
  · simp [checkContent] at h
  · rw [checkContent] at h
    split_ifs at h with h1 h2
    simp only [Except.ok.injEq] at h
    subst h
    exact ⟨rfl, by omega, by omega⟩

/-! ## The claims -/

/-- Claim C1 (the code violates it): Step 3 of the token budgeter accepts a
compressible skill at half cost without re-checking the budget, so the sum of
the accepted estimatedTokens can exceed the supplied budget: with budget 4 and
one compressible skill estimated at 10 tokens, the skill is accepted
compressed at cost 5 and the accepted total is 5 > 4 — contradicting both the
budget invariant and the rule that a compressed skill is accepted only when
running_total + compressed_cost <= budget. -/
theorem c1_budget_invariant_violated :
    (applyTokenBudget (fun _ => true) 4 0 [oversizeScored]).map MatchResult.compressed =
      [true] ∧
    ((applyTokenBudget (fun _ => true) 4 0 [oversizeScored]).map
        MatchResult.estimatedTokens).sum = 5 ∧
    (4 : ℚ) <
      ((applyTokenBudget (fun _ => true) 4 0 [oversizeScored]).map
          MatchResult.estimatedTokens).sum := by
  have hlen : oversizeScored.row.content.length = 38 := rfl
  have htok : estimateTokens oversizeScored.row.content = 10 := by
    rw [estimateTokens, hlen]; norm_num
  have hout : applyTokenBudget (fun _ => true) 4 0 [oversizeScored] =
      [⟨oversizeScored, 5, true⟩] := by
    simp only [applyTokenBudget, htok]
    norm_num
  rw [hout]
  norm_num

/-- Claim C2 (the code violates it): the skills table declares
`slug TEXT NOT NULL UNIQUE` besides the per-scope index, so a project skill
cannot reuse the slug of an existing global skill: the second insert below
fails the column-level constraint even though the scopes differ. -/
theorem c2_cross_scope_slug_rejected :
    insertSkill [] globalStatusRow = Except.ok [globalStatusRow] ∧
    globalStatusRow.is_global = true ∧ globalStatusRow.project_id = none ∧
    projectStatusRow.is_global = false ∧ projectStatusRow.project_id = some 1 ∧
    globalStatusRow.slug = projectStatusRow.slug ∧
    insertSkill [globalStatusRow] projectStatusRow =
      Except.error "UNIQUE constraint failed: skills.slug" := by
  refine ⟨rfl, rfl, rfl, rfl, rfl, rfl, rfl⟩

/-- Claim C3: the single pass of the budgeter accepts an order-preserving prefix of
the precedence-ordered input — as soon as one skill is rejected the pass
stops, so no skill later in the order is accepted (no skip-and-continue). -/
theorem c3_budget_cutoff (canCompress : SkillRow → Bool) (budget : ℚ)
    (l : List ScoredSkill) :
    ∃ k, k ≤ l.length ∧
      (applyTokenBudget canCompress budget 0 l).map MatchResult.scored = l.take k :=
  applyTokenBudget_take canCompress budget 0 l

/-- Claim C4: the precedence resolver orders every project-scoped skill before
every global-scoped one regardless of score, orders equal-scope skills by
non-increasing score, and equal-scope equal-score skills by non-increasing
updatedAt; its output is a permutation of its input, and the accepted engine
output inherits the same pairwise order. -/
theorem c4_precedence_order (l : List ScoredSkill) :
    (applySortPrecedence l).Pairwise precedesRel ∧
    (applySortPrecedence l).Perm l ∧
    ∀ (canCompress : SkillRow → Bool) (tbl : List SkillRow) (msg : String)
      (pid : Option Nat) (budget : ℚ),
      ((findRelevantSkills canCompress tbl msg pid budget).map
          MatchResult.scored).Pairwise precedesRel := by
  refine ⟨?_, applySortPrecedence_perm l, ?_⟩
  · exact List.Pairwise.imp (fun h => keyLE_precedes h) (List.sorted_insertionSort keyLE l)
  · intro canCompress tbl msg pid budget
    obtain ⟨k, _, he⟩ :=
      applyTokenBudget_take canCompress budget 0 (rankedSkills tbl msg pid)
    rw [findRelevantSkills, he]
    refine List.Pairwise.sublist (List.take_sublist k _) ?_
    exact List.Pairwise.imp (fun h => keyLE_precedes h) (List.sorted_insertionSort keyLE _)

/-- Claim C5: the matcher score of a skill is the sum, over its trigger
keywords, of the per-keyword score — 4 for a space-containing keyword found
as a contiguous substring of the lowercased trimmed message (recorded as
phrase:"kw"), else 2 for an exact token match (word:"kw"), else 1 for a
substring-of-a-token match (partial:"kw", only when that keyword had no exact
match), else 0 — and the recorded explanations are exactly the per-keyword
records in keyword order. The score is a natural number, hence non-negative. -/
theorem c5_matcher_score_characterization (skill : SkillRow) (norm : List Char)
    (words : List (List Char)) :
    scoreSkill skill norm words =
      (((parseKeywords skill.trigger_keywords).map (keywordScore norm words)).sum,
       (parseKeywords skill.trigger_keywords).filterMap (keywordMatch norm words)) := by
  rw [scoreSkill, scoreSkillAux_eq]
  simp

/-- Claim C6: the resolver breaks full ties (equal scope, score and updatedAt)
by the fixed secondary key, ascending id, both in the resolver output and in
the accepted engine output; the engine being a pure function of its input,
repeated invocations on the same input are definitionally equal, so the tie
order is the same on every invocation. -/
theorem c6_deterministic_tiebreak (l : List ScoredSkill) :
    (applySortPrecedence l).Pairwise tieBreakRel ∧
    ∀ (canCompress : SkillRow → Bool) (tbl : List SkillRow) (msg : String)
      (pid : Option Nat) (budget : ℚ),
      ((findRelevantSkills canCompress tbl msg pid budget).map
          MatchResult.scored).Pairwise tieBreakRel := by
  refine ⟨?_, ?_⟩
  · exact List.Pairwise.imp (fun h => keyLE_tieBreak h) (List.sorted_insertionSort keyLE l)
  · intro canCompress tbl msg pid budget
    obtain ⟨k, _, he⟩ :=
      applyTokenBudget_take canCompress budget 0 (rankedSkills tbl msg pid)
    rw [findRelevantSkills, he]
    refine List.Pairwise.sublist (List.take_sublist k _) ?_
    exact List.Pairwise.imp (fun h => keyLE_tieBreak h) (List.sorted_insertionSort keyLE _)

/-- Claim C7: every skill in the engine output has a positive matcher score
against the message — a skill scoring 0 is dropped before precedence
resolution and never appears, whatever its scope — and when every candidate
scores 0 the engine returns the empty list and the formatted context string
is empty. -/
theorem c7_zero_score_dropped (canCompress : SkillRow → Bool) (tbl : List SkillRow)
    (msg : String) (pid : Option Nat) (budget : ℚ) :
    (∀ r ∈ findRelevantSkills canCompress tbl msg pid budget,
        0 < (scoreSkill r.scored.row (lowerTrim msg) (tokenize (lowerTrim msg))).1) ∧
    ((∀ s ∈ candidatesFor tbl pid,
        (scoreSkill s (lowerTrim msg) (tokenize (lowerTrim msg))).1 = 0) →
      findRelevantSkills canCompress tbl msg pid budget = [] ∧
      buildSkillsContext (findRelevantSkills canCompress tbl msg pid budget) = "") := by
  constructor
  · intro r hr
    obtain ⟨_, hpos, hsc⟩ := mem_findRelevantSkills hr
    exact hsc ▸ hpos
  · intro hz
    have hfil : (scoreAll msg (candidatesFor tbl pid)).filter (fun s => 0 < s.score) = [] := by
      rw [List.filter_eq_nil_iff]
      intro a ha
      obtain ⟨h1, h2, _⟩ := mem_scoreAll ha
      simp [h2, hz a.row h1]
    have hempty : findRelevantSkills canCompress tbl msg pid budget = [] := by
      rw [findRelevantSkills, rankedSkills, hfil]
      rfl
    exact ⟨hempty, by rw [hempty]; rfl⟩

/-- Claim C8: the two candidate retrieval queries return only auto-activating
skills (the globals, and those of the given project), so a skill with
autoActivate = false never appears in the engine output for any message. -/
theorem c8_auto_activate_only (canCompress : SkillRow → Bool) (tbl : List SkillRow)
    (msg : String) (pid : Option Nat) (budget : ℚ) :
    (∀ s ∈ getGlobalSkills tbl, s.auto_activate = true ∧ s.is_global = true) ∧
    (∀ p : Nat, ∀ s ∈ getProjectSkills tbl p,
        s.auto_activate = true ∧ s.project_id = some p) ∧
    (∀ r ∈ findRelevantSkills canCompress tbl msg pid budget,
        r.scored.row.auto_activate = true) := by
  have hg : ∀ s ∈ getGlobalSkills tbl, s.auto_activate = true ∧ s.is_global = true := by
    intro s hs
    rw [getGlobalSkills] at hs
    have := (List.perm_insertionSort updatedDesc _).mem_iff.mp hs
    rw [List.mem_filter] at this
    have h2 := this.2
    simp only [Bool.and_eq_true] at h2
    exact ⟨h2.2, h2.1⟩
  have hp : ∀ p : Nat, ∀ s ∈ getProjectSkills tbl p,
      s.auto_activate = true ∧ s.project_id = some p := by
    intro p s hs
    rw [getProjectSkills] at hs
    have := (List.perm_insertionSort updatedDesc _).mem_iff.mp hs
    rw [List.mem_filter] at this
    have h2 := this.2
    simp only [Bool.and_eq_true, beq_iff_eq] at h2
    exact ⟨h2.2, h2.1⟩
  refine ⟨hg, hp, ?_⟩
  intro r hr
  obtain ⟨hc, _, _⟩ := mem_findRelevantSkills hr
  cases pid with
  | none => exact (hg _ hc).1
  | some p =>
    rcases List.mem_append.mp hc with h | h
    · exact (hp p _ h).1
    · exact (hg _ h).1

/-- Claim C9: a skill record whose triggerKeywords field is missing or
malformed is treated as having the empty keyword list — it scores 0 with no
match records, and it never appears in the engine output; the treatment is a
total function, no error is raised. -/
theorem c9_missing_keywords_lenient (canCompress : SkillRow → Bool)
    (tbl : List SkillRow) (msg : String) (pid : Option Nat) (budget : ℚ)
    (s : SkillRow)
    (h : s.trigger_keywords = KeywordsField.missing ∨
      s.trigger_keywords = KeywordsField.malformed) :
    parseKeywords s.trigger_keywords = [] ∧
    scoreSkill s (lowerTrim msg) (tokenize (lowerTrim msg)) = (0, []) ∧
    ∀ r ∈ findRelevantSkills canCompress tbl msg pid budget, r.scored.row ≠ s := by
  have hk : parseKeywords s.trigger_keywords = [] := by
    rcases h with h | h <;> rw [h] <;> rfl
  have hsc : scoreSkill s (lowerTrim msg) (tokenize (lowerTrim msg)) = (0, []) := by
    rw [scoreSkill, hk]; rfl
  refine ⟨hk, hsc, ?_⟩
  intro r hr he
  obtain ⟨_, hpos, hscr⟩ := mem_findRelevantSkills hr
  rw [he, hsc] at hscr
  simp at hscr
  omega

/-- Witness for C9 at a concrete input: a record with a NULL keywords column
in a two-skill table, message "hello status". -/
theorem c9_missing_keywords_lenient_witness :
    parseKeywords missingKwRow.trigger_keywords = [] ∧
    scoreSkill missingKwRow (lowerTrim "hello status")
      (tokenize (lowerTrim "hello status")) = (0, []) ∧
    ∀ r ∈ findRelevantSkills (fun _ => true) [missingKwRow, globalStatusRow]
        "hello status" none 2000, r.scored.row ≠ missingKwRow :=
  c9_missing_keywords_lenient (fun _ => true) [missingKwRow, globalStatusRow]
    "hello status" none 2000 missingKwRow (Or.inl rfl)

/-- Claim C10 counterexample: the request whose name is a single blank passes
createSkillSchema (the min(1)/max(100) checks run before the trim transform),
yet the validated, stored name — the trimmed value — is the empty string. -/
theorem c10_whitespace_name_accepted :
    (validateCreateSkill whitespaceNameInput).toOption.map ValidatedSkill.name =
      some "" ∧
    whitespaceNameInput.name = some " " ∧ trimString " " = "" := by
  refine ⟨rfl, rfl, rfl⟩

/-- Claim C10 as amended: every accepted creation request has a name that is
non-empty and of at most 100 characters as submitted (before trimming; the
stored name is the trimmed value, of at most 100 characters, possibly empty
when the submitted name is all whitespace) and a content that is a non-empty
string of at most 50,000 characters stored verbatim, with triggerKeywords
defaulting to the empty array when omitted; a request failing the schema is
answered with HTTP status 400 and no skill is created. -/
theorem c10_validation_bounds (input : CreateSkillInput) :
    (∀ d, validateCreateSkill input = Except.ok d →
      (∃ nm, input.name = some nm ∧ 1 ≤ nm.length ∧ nm.length ≤ 100 ∧
        d.name = trimString nm ∧ d.name.length ≤ 100) ∧
      1 ≤ d.content.length ∧ d.content.length ≤ 50000 ∧
      input.content = some d.content ∧
      (input.triggerKeywords = none → d.triggerKeywords = [])) ∧
    (∀ e, validateCreateSkill input = Except.error e → e.1 = 400) := by
  constructor
  · intro d hd
    have hp : parseCreateSkill input = Except.ok d := by
      rw [validateCreateSkill] at hd
      rcases hpc : parseCreateSkill input with e | v
      · rw [hpc] at hd; simp at hd
      · rw [hpc] at hd
        simp only [Except.ok.injEq] at hd
        rw [hd]
    rw [parseCreateSkill] at hp
    rcases hn : checkName input.name with e | nm
    · rw [hn] at hp; simp at hp
    rw [hn] at hp
    rcases hc : checkContent input.content with e | ct
    · rw [hc] at hp; simp at hp
    rw [hc] at hp
    rcases hpid : parseProjectId input.projectId with e | pid
    · rw [hpid] at hp; simp at hp
    rw [hpid] at hp
    simp only [Except.ok.injEq] at hp
    obtain ⟨s, hs, hs1, hs2, hnm⟩ := checkName_ok hn
    obtain ⟨hcs, hc1, hc2⟩ := checkContent_ok hc
    subst hp
    refine ⟨⟨s, hs, hs1, hs2, hnm, ?_⟩, hc1, hc2, hcs, ?_⟩
    · show nm.length ≤ 100
      rw [hnm]
      exact le_trans (trimString_length_le s) hs2
    · intro hkw
      show input.triggerKeywords.getD [] = []
      rw [hkw]
      rfl
  · intro e he
    rw [validateCreateSkill] at he
    rcases hpc : parseCreateSkill input with m | v
    · rw [hpc] at he
      simp only [Except.error.injEq] at he
      rw [← he]
    · rw [hpc] at he; simp at he

end AibaPM
